import Mathlib

/-!
Verification of the incremental email-triage engine in `email_agent.py`
(class `EmailAgent`): checkpoint-based new-message detection, per-run
deduplication, conversation-history aggregation and the per-message
triage pipeline (fetch, classify, history, generate, draft).

The external collaborators (the Gmail API and the reasoning service)
are modelled as environment-supplied responses: each API call that can
raise is modelled by an `Option`/`Except` response, and each
reasoning-service invocation (`run_agent_task`) is a function from the
prompt text to the returned text.  Strings are modelled as Lean
`String` / `List Char`; Python `str.lower` is modelled as ASCII
lowercasing, `str.strip` as removal of leading/trailing whitespace and
`in` (on strings) as substring containment.
-/

namespace EmailAgent

/-! ### Python string primitives -/

/-- The whitespace characters removed by Python `str.strip()` (ASCII range). -/
def isWs (c : Char) : Bool :=
  c = ' ' || c = '\t' || c = '\n' || c = '\r' || c = '\x0b' || c = '\x0c'

/-- The ASCII uppercase-to-lowercase mapping used by Python `str.lower()`. -/
def upperLowerTable : List (Char × Char) :=
  [('A', 'a'), ('B', 'b'), ('C', 'c'), ('D', 'd'), ('E', 'e'), ('F', 'f'),
   ('G', 'g'), ('H', 'h'), ('I', 'i'), ('J', 'j'), ('K', 'k'), ('L', 'l'),
   ('M', 'm'), ('N', 'n'), ('O', 'o'), ('P', 'p'), ('Q', 'q'), ('R', 'r'),
   ('S', 's'), ('T', 't'), ('U', 'u'), ('V', 'v'), ('W', 'w'), ('X', 'x'),
   ('Y', 'y'), ('Z', 'z')]

/-- ASCII lowercasing of one character, as done by Python `str.lower()`. -/
def pyLowerChar (c : Char) : Char :=
  match upperLowerTable.find? (fun p => p.1 = c) with
  | some p => p.2
  | none => c

/-- Lowercase a character list (Python `str.lower`). -/
def lowerL (l : List Char) : List Char := l.map pyLowerChar

/-- Remove trailing whitespace (the tail half of Python `str.strip`). -/
def dropTrail (l : List Char) : List Char := (l.reverse.dropWhile isWs).reverse

/-- Python `str.strip()`: drop leading then trailing whitespace. -/
def stripL (l : List Char) : List Char := dropTrail (l.dropWhile isWs)

/-- `beginsWith pat l` holds when `pat` is an initial segment of `l`. -/
def beginsWith : List Char → List Char → Bool
  | [], _ => true
  | _ :: _, [] => false
  | a :: ps, b :: ls => a = b && beginsWith ps ls

/-- `containsSub pat l`: Python `pat in l` substring test. -/
def containsSub : List Char → List Char → Bool
  | pat, [] => pat.isEmpty
  | pat, c :: rest => beginsWith pat (c :: rest) || containsSub pat rest

/-- Python `s.lower()` on `String`. -/
def pyLower (s : String) : String := (lowerL s.data).asString

/-- Python `s.strip()` on `String`. -/
def pyStrip (s : String) : String := (stripL s.data).asString

/-- Python `pat in s` (substring containment) on `String`. -/
def strContains (pat s : String) : Bool := containsSub pat.data s.data

/-! ### Data model -/

/-- The per-message summary assembled by the enumeration code
(`search_new_emails` and the live-mode scan): the dict with keys
`id`, `sender`, `subject`, `date`, `internal_date`. -/
structure Msg where
  id : String
  sender : String
  subject : String
  date : String
  internal_date : Nat
deriving DecidableEq, Repr

/-- The mutable tracking state of `EmailAgent`: `processed_emails`
(a Python set of ids, modelled as a list with set-insert) and
`last_check_time` (`None` or an epoch-milliseconds value). -/
structure AgentState where
  processed_emails : List String
  last_check_time : Option Nat
deriving DecidableEq, Repr

/-- `EmailAgent.__init__`: `processed_emails = set()`, `last_check_time = None`. -/
def initialState : AgentState := ⟨[], none⟩

/-- The payload of a `format='full'` Gmail message, after the adapter
has base64-decoded the part data: headers, optional `parts` list of
(mimeType, decoded data) and optional top-level decoded `body` data. -/
structure GmailPayload where
  headers : List (String × String)
  parts : Option (List (String × String))
  body : Option String
deriving DecidableEq, Repr

/-- A raw `format='full'` Gmail message as consumed by `get_email_details`. -/
structure GmailMessage where
  payload : GmailPayload
  snippet : String
deriving DecidableEq, Repr

/-- The record returned by `get_email_details` (keys `id`, `from`, `to`,
`subject`, `date`, `body`, `snippet`; `from` is spelt `fromAddr`). -/
structure EmailDetails where
  id : String
  fromAddr : String
  toAddr : String
  subject : String
  date : String
  body : String
  snippet : String
deriving DecidableEq, Repr

/-- A `format='metadata'` message fetched during history aggregation. -/
structure HistMeta where
  headers : List (String × String)
  snippet : String
deriving DecidableEq, Repr

/-- One entry of the conversation history (`from` spelt `fromAddr`). -/
structure HistoryEntry where
  id : String
  fromAddr : String
  toAddr : String
  subject : String
  date : String
  snippet : String
  direction : String
deriving DecidableEq, Repr

/-- The record returned by `search_conversation_history`. -/
structure ConversationRecord where
  total_count : Nat
  sender : String
  all_emails : List HistoryEntry
  summary : String
deriving DecidableEq, Repr

/-- The environment of one `process_new_emails` cycle: the responses of
the external collaborators.
* `listing`: outcome of the unread-message listing (the `list` call plus
  the per-message metadata `get`s made inside the same `try` block);
  `none` models an exception anywhere in that block, `some pool` the
  successfully assembled message summaries in listing order.
* `now`: the value of `int(time.time() * 1000)`.
* `fetchDetails`: outcome of the `format='full'` fetch per message id.
* `respond`: `run_agent_task` as a function of the prompt text (it
  never raises: errors come back as text).
* `historyList`: per counterpart address, outcome of the history
  listing call (the ids matching the query, newest first).
* `historyFetch`: outcome of the metadata fetch per history entry id. -/
structure CycleEnv where
  listing : Option (List Msg)
  now : Nat
  fetchDetails : String → Except String GmailMessage
  respond : String → String
  historyList : String → Except String (List String)
  historyFetch : String → Except String HistMeta

/-! ### `get_email_details` -/

/-- `next((h['value'] for h in headers if h['name'].lower() == name), default)`. -/
def headerLookup (headers : List (String × String)) (name default : String) : String :=
  match headers.find? (fun h => pyLower h.1 = name) with
  | some h => h.2
  | none => default

/-- Body extraction of `get_email_details`: first `text/plain` part with
non-empty data, else the top-level body data, else the empty string. -/
def extract_body (p : GmailPayload) : String :=
  match p.parts with
  | some parts =>
      match parts.find? (fun part => part.1 = "text/plain" && part.2 ≠ "") with
      | some part => part.2
      | none => ""
  | none =>
      match p.body with
      | some data => data
      | none => ""

/-- `get_email_details`: assemble the full-content record, or the synthetic
placeholder when the fetch raised. -/
def get_email_details (message_id : String) (result : Except String GmailMessage) :
    EmailDetails :=
  match result with
  | .ok msg =>
      let headers := msg.payload.headers
      let sender := headerLookup headers "from" "Unknown"
      let to_addr := headerLookup headers "to" "Unknown"
      let subject := headerLookup headers "subject" "No Subject"
      let date := headerLookup headers "date" "Unknown"
      let body := extract_body msg.payload
      let body := if body.length > 2000 then body.take 2000 ++ "...[truncated]" else body
      ⟨message_id, sender, to_addr, subject, date,
        if body = "" then "No body content" else body, msg.snippet⟩
  | .error e =>
      ⟨message_id, "Unknown", "Unknown", "Error fetching email", "Unknown",
        "Error: " ++ e, ""⟩

/-! ### Classification -/

/-- The fixed classification prompt template of `classify_email`. -/
def classification_prompt (email : EmailDetails) : String :=
  let snippet := if email.body ≠ "" then email.body.take 500 else email.snippet.take 500
  "You are a smart email classifier with long-term memory.\n"
  ++ "Based on the sender, subject, and content, decide if this email should be:\n"
  ++ "1. Ignored (promotions, newsletters, spam, social updates, or non-personal messages)\n"
  ++ "2. Processed (important, personal, work-related, or actionable)\n\n"
  ++ "Return only one word: \"ignore\" or \"process\".\n\n"
  ++ "**Ignore** emails that are:\n"
  ++ "* Promotional or marketing (sales, offers, discounts, newsletters)\n"
  ++ "* Automated system emails (confirmations, subscriptions, security alerts)\n"
  ++ "* Social notifications (LinkedIn, Instagram, YouTube, etc.)\n"
  ++ "* Event updates, ticket bookings, or receipts\n"
  ++ "* Recruitment spam, newsletters, or general HR ads\n"
  ++ "* Mails without a personal greeting or request for action\n"
  ++ "* Gaming promotions, rewards, or virtual currency offers\n"
  ++ "* No-reply senders with marketing content\n\n"
  ++ "**Process** emails that are:\n"
  ++ "* From known colleagues, professors, or managers\n"
  ++ "* Contain questions, requests, or project details\n"
  ++ "* Related to academic or professional tasks\n"
  ++ "* Require replies, reports, scheduling, or document review\n"
  ++ "* Have \"urgent\", \"follow-up\", or \"update\" in subject\n"
  ++ "* Personal correspondence with specific requests\n\n"
  ++ "EMAIL DETAILS:\nFrom: " ++ email.fromAddr
  ++ "\nSubject: " ++ email.subject
  ++ "\nSnippet: " ++ snippet ++ "\n"

/-- `classify_email`: `run_agent_task(classification_prompt).strip().lower()`. -/
def classify_email (email : EmailDetails) (respond : String → String) : String :=
  pyLower (pyStrip (respond (classification_prompt email)))

/-- The pipeline's verdict test (line `if "ignore" in action.lower():`). -/
def verdictIgnores (action : String) : Bool := strContains "ignore" (pyLower action)

/-! ### Conversation history aggregation -/

/-- A character of the class `[\w.-]` of the address-extraction pattern. -/
def isWordChar (c : Char) : Bool := c.isAlphanum || c = '_' || c = '.' || c = '-'

/-- Try to match `[\w.-]+@[\w.-]+` at the start of the input. -/
def matchEmailAt (l : List Char) : Option (List Char) :=
  let run1 := l.takeWhile isWordChar
  if run1.isEmpty then none
  else
    match l.drop run1.length with
    | '@' :: rest =>
        let run2 := rest.takeWhile isWordChar
        if run2.isEmpty then none else some (run1 ++ '@' :: run2)
    | _ => none

/-- `re.search(r'[\w\.-]+@[\w\.-]+', s)`: leftmost match of the pattern. -/
def findEmail : List Char → Option (List Char)
  | [] => none
  | c :: rest =>
      match matchEmailAt (c :: rest) with
      | some m => some m
      | none => findEmail rest

/-- The bare address used by `search_conversation_history`: the regex
match when there is one, otherwise the raw input. -/
def extractAddr (s : String) : String :=
  match findEmail s.data with
  | some m => m.asString
  | none => s

/-- Build one history entry from a fetched metadata record (including
the `direction` tag computed from the `from` header). -/
def mkHistEntry (sender msgId : String) (meta : HistMeta) : HistoryEntry :=
  let from_addr := headerLookup meta.headers "from" "Unknown"
  let to_addr := headerLookup meta.headers "to" "Unknown"
  let subject := headerLookup meta.headers "subject" "No Subject"
  let date := headerLookup meta.headers "date" "Unknown"
  let direction :=
    if strContains (pyLower sender) (pyLower from_addr) then "FROM them"
    else "TO them (your reply)"
  ⟨msgId, from_addr, to_addr, subject, date, meta.snippet, direction⟩

/-- The summary string built for a non-empty history (the source embeds
literal `\n` two-character escapes in these f-strings). -/
def historySummary (sender : String) (entries : List HistoryEntry) : String :=
  let base := "COMPLETE conversation history with " ++ sender ++ ":\\n\\n"
    ++ "Last 20 Emails (both directions):\\n"
    ++ (List.replicate 50 '=').asString ++ "\\n\\n"
  (entries.enumFrom 1).foldl
    (fun acc p =>
      acc ++ toString p.1 ++ ". [" ++ p.2.direction ++ "]\\n"
        ++ "   Subject: " ++ p.2.subject ++ "\\n"
        ++ "   Date: " ++ p.2.date ++ "\\n"
        ++ "   Preview: " ++ p.2.snippet.take 100 ++ "...\\n\\n")
    base

/-- `search_conversation_history`.  The history listing is requested
with `maxResults=20`, modelled by `take 20` of the matching ids; a
listing exception yields the error record; a failed per-entry metadata
fetch (404 or otherwise) is skipped. -/
def search_conversation_history (sender_email : String)
    (histList : String → Except String (List String))
    (histFetch : String → Except String HistMeta) : ConversationRecord :=
  let s := extractAddr sender_email
  match histList s with
  | .error e => ⟨0, s, [], "Error searching history: " ++ e⟩
  | .ok resp =>
      let messages := resp.take 20
      if messages.isEmpty then
        ⟨0, s, [], "No previous conversation with " ++ s⟩
      else
        let all_emails := messages.filterMap (fun msgId =>
          match histFetch msgId with
          | .error _ => none
          | .ok meta => some (mkHistEntry s msgId meta))
        ⟨all_emails.length, s, all_emails, historySummary s all_emails⟩

/-! ### Response generation and draft creation -/

/-- The reply-generation prompt of `generate_response_with_context`. -/
def generation_prompt (new_email : EmailDetails) (history : ConversationRecord) : String :=
  let history_summary :=
    if history.summary.length > 1500 then history.summary.take 1500 ++ "...[truncated]"
    else history.summary
  "Draft a professional email response:\n\nNEW EMAIL:\nFrom: " ++ new_email.fromAddr
  ++ "\nSubject: " ++ new_email.subject
  ++ "\nBody: " ++ new_email.body.take 1000
  ++ (if new_email.body.length > 1000 then "...[truncated]" else "")
  ++ "\n\nCONVERSATION HISTORY:\nTotal emails from sender: " ++ toString history.total_count
  ++ "\n" ++ history_summary
  ++ "\n\nCreate a thoughtful, professional response that:\n"
  ++ "1. Addresses the main points\n"
  ++ "2. Considers our conversation history\n"
  ++ "3. Is clear and concise\n\n"
  ++ "Write only the response body (no subject needed)."

/-- `generate_response_with_context`. -/
def generate_response_with_context (new_email : EmailDetails)
    (history : ConversationRecord) (respond : String → String) : String :=
  respond (generation_prompt new_email history)

/-- The draft-creation prompt of `create_draft_reply`. -/
def draft_prompt (sender subject response_body : String) : String :=
  "You MUST create a Gmail draft. Use the gmail_create_draft tool.\n\n"
  ++ "CREATE A DRAFT with these details:\n- To: " ++ sender
  ++ "\n- Subject: " ++ subject
  ++ "\n- Message: " ++ response_body
  ++ "\n\nCall the gmail_create_draft tool NOW and confirm success."

/-- The success phrases scanned for in the draft confirmation text. -/
def success_indicators : List String :=
  ["draft created", "draft id", "successfully", "created draft",
   "draft has been", "id:", "draft_id", "success"]

/-- `create_draft_reply`: normalize the subject, invoke the agent, then
report success whether or not a success phrase is found. -/
def create_draft_reply (original_email : EmailDetails) (response_body : String)
    (respond : String → String) : Bool :=
  let sender := original_email.fromAddr
  let subject := original_email.subject
  let subject := if subject.startsWith "Re:" then subject else "Re: " ++ subject
  let response := respond (draft_prompt sender subject response_body)
  if success_indicators.any (fun ind => strContains ind (pyLower response)) then
    true
  else
    true

/-! ### Enumeration of new messages -/

/-- The `break` test of the `search_new_emails` loop:
`if max_results and len(all_emails) >= max_results` (0 is falsy). -/
def searchBreak (max_results : Option Nat) (acc : List Msg) : Bool :=
  match max_results with
  | some k => if k = 0 then false else decide (k ≤ acc.length)
  | none => false

/-- The enumeration loop of `search_new_emails`: skip ids already in
`processed_emails`, append the rest, stop at `max_results`. -/
def searchLoop (processed : List String) (max_results : Option Nat)
    (acc : List Msg) : List Msg → List Msg
  | [] => acc
  | m :: rest =>
      if m.id ∈ processed then searchLoop processed max_results acc rest
      else
        let acc2 := acc ++ [m]
        if searchBreak max_results acc2 then acc2
        else searchLoop processed max_results acc2 rest

/-- `search_new_emails`: on any exception return `[]`; otherwise list
with `maxResults = fetch_limit` (modelled by `take`) and run the loop. -/
def search_new_emails (processed : List String) (max_results : Option Nat)
    (env : CycleEnv) : List Msg :=
  match env.listing with
  | none => []
  | some pool =>
      let fetch_limit :=
        match max_results with
        | some k => if k = 0 then 50 else k
        | none => 50
      searchLoop processed max_results [] (pool.take fetch_limit)

/-- The live-mode scan of `process_new_emails`: walk the listing and
stop at the first message with `internal_date ≤ last_check_time`. -/
def liveScan (checkpoint : Nat) : List Msg → List Msg
  | [] => []
  | m :: rest =>
      if m.internal_date ≤ checkpoint then []
      else m :: liveScan checkpoint rest

/-- `max(email['internal_date'] for email in emails)` (only used on
non-empty lists, where the `0` base is absorbed). -/
def maxDate (emails : List Msg) : Nat :=
  (emails.map Msg.internal_date).foldl max 0

/-! ### The triage pipeline and the cycle -/

/-- The observable outcome of the per-message loop of
`process_new_emails`: the final `processed_emails`, the list of
(id, details) pairs handed to `classify_email`, and the ids that went on
through history aggregation, generation and draft creation. -/
structure PipeOut where
  processed : List String
  classified : List (String × EmailDetails)
  drafted : List String
deriving DecidableEq, Repr

/-- The `for email_info in emails` loop of `process_new_emails`:
fetch details, classify, branch on the verdict, and add the id to
`processed_emails` in either branch; ids that are falsy are skipped. -/
def processEmails (env : CycleEnv) : List Msg → List String → PipeOut
  | [], processed => ⟨processed, [], []⟩
  | m :: rest, processed =>
      if m.id = "" then processEmails env rest processed
      else
        let d := get_email_details m.id (env.fetchDetails m.id)
        let action := classify_email d env.respond
        if verdictIgnores action then
          let out := processEmails env rest (processed.insert m.id)
          ⟨out.processed, (m.id, d) :: out.classified, out.drafted⟩
        else
          let history := search_conversation_history d.fromAddr env.historyList env.historyFetch
          let response := generate_response_with_context d history env.respond
          let _draft_ok := create_draft_reply d response env.respond
          let out := processEmails env rest (processed.insert m.id)
          ⟨out.processed, (m.id, d) :: out.classified, m.id :: out.drafted⟩

/-- The observable result of one `process_new_emails` cycle. -/
structure CycleResult where
  state : AgentState
  emails : List Msg
  classified : List (String × EmailDetails)
  drafted : List String

/-- `process_new_emails`: bootstrap mode when `last_check_time` is unset
(fetch the last 5 unread; empty result sets the checkpoint to now),
live mode otherwise (list up to 10 unread — modelled by `take 10` —
and scan down to the checkpoint); then run the pipeline and raise the
checkpoint to the newest processed `internal_date`. -/
def process_new_emails (st : AgentState) (env : CycleEnv) : CycleResult :=
  match st.last_check_time with
  | none =>
      let emails := search_new_emails st.processed_emails (some 5) env
      match emails with
      | [] => ⟨⟨st.processed_emails, some env.now⟩, [], [], []⟩
      | e0 :: _ =>
          let st1 : AgentState := ⟨st.processed_emails, some e0.internal_date⟩
          let out := processEmails env emails st1.processed_emails
          ⟨⟨out.processed, some (maxDate emails)⟩, emails, out.classified, out.drafted⟩
  | some c =>
      match env.listing with
      | none => ⟨st, [], [], []⟩
      | some pool =>
          let messages := pool.take 10
          let emails := liveScan c messages
          match emails with
          | [] => ⟨st, [], [], []⟩
          | _ :: _ =>
              let out := processEmails env emails st.processed_emails
              ⟨⟨out.processed, some (maxDate emails)⟩, emails, out.classified, out.drafted⟩

/-- A run: repeated cycles (`run_continuous`), recording for each cycle
the state it started from and its observable result. -/
def tracePairs (st : AgentState) : List CycleEnv → List (AgentState × CycleResult)
  | [] => []
  | env :: rest =>
      let r := process_new_emails st env
      (st, r) :: tracePairs r.state rest

/-- The dedup invariant tying `processed_emails` to the checkpoint:
with no checkpoint nothing is processed, and with checkpoint `c` every
processed id has `internal_date ≤ c` (ids are mapped to their
provider-assigned `internal_date` by `idate`). -/
def Inv (idate : String → Nat) (st : AgentState) : Prop :=
  (st.last_check_time = none → st.processed_emails = []) ∧
  (∀ id ∈ st.processed_emails, ∃ c, st.last_check_time = some c ∧ idate id ≤ c)


/-- The pattern searched for by the classification branch. -/
def igL : List Char := ['i', 'g', 'n', 'o', 'r', 'e']

/-! ### Concrete fixtures used by the witnesses -/

/-- A reasoning adapter that always answers "process". -/
def respondProcess : String → String := fun _ => "process"

/-- A full-content fetch that always fails. -/
def fetchFail : String → Except String GmailMessage := fun _ => .error "HttpError 500"

/-- A history listing that always comes back empty. -/
def histListEmpty : String → Except String (List String) := fun _ => .ok []

/-- A history metadata fetch that always fails. -/
def histFetchFail : String → Except String HistMeta := fun _ => .error "404 not found"

/-- A message summary with the given id and internal date. -/
def msgW (i : String) (d : Nat) : Msg := ⟨i, "someone@example.com", "subj", "date", d⟩

/-- Environment for a live-mode cycle listing dates 500, 400, 300, 250. -/
def envLive : CycleEnv :=
  ⟨some [msgW "a" 500, msgW "b" 400, msgW "c" 300, msgW "d" 250], 900,
    fetchFail, respondProcess, histListEmpty, histFetchFail⟩

/-- Environment whose unread listing raises. -/
def envFail : CycleEnv :=
  ⟨none, 777, fetchFail, respondProcess, histListEmpty, histFetchFail⟩

/-- Environment with an empty unread listing. -/
def envEmpty : CycleEnv :=
  ⟨some [], 888, fetchFail, respondProcess, histListEmpty, histFetchFail⟩

/-- A live-mode starting state with checkpoint 300. -/
def stLive : AgentState := ⟨[], some 300⟩

/-- A bootstrap environment listing ids "a" (500) and "b" (400). -/
def envBoot : CycleEnv :=
  ⟨some [msgW "a" 500, msgW "b" 400], 100,
    fetchFail, respondProcess, histListEmpty, histFetchFail⟩

/-- A follow-up live environment listing ids "c" (600) and "a" (500). -/
def envLive2 : CycleEnv :=
  ⟨some [msgW "c" 600, msgW "a" 500], 101,
    fetchFail, respondProcess, histListEmpty, histFetchFail⟩

/-- The internal dates assigned by the provider to the witness ids. -/
def idateW : String → Nat :=
  fun id => if id = "a" then 500 else if id = "b" then 400 else if id = "c" then 600 else 0

/-! ## Lemmas about the Python string primitives -/

theorem pyLowerChar_fix (d : Char) (hd : ∀ q ∈ upperLowerTable, ¬(q.1 = d)) :
    pyLowerChar d = d := by
  unfold pyLowerChar
  rw [List.find?_eq_none.2 (by simpa using hd)]

theorem isWs_pyLowerChar (c : Char) : isWs (pyLowerChar c) = isWs c := by
  unfold pyLowerChar
  cases h : upperLowerTable.find? (fun p => p.1 = c) with
  | none => rfl
  | some p =>
      have hp := List.find?_some h
      have hmem := List.mem_of_find?_eq_some h
      have hc : p.1 = c := by simpa using hp
      have hfacts : ∀ q ∈ upperLowerTable, isWs q.1 = false ∧ isWs q.2 = false := by
        decide
      rw [← hc, (hfacts p hmem).1, (hfacts p hmem).2]

theorem pyLowerChar_idem (c : Char) :
    pyLowerChar (pyLowerChar c) = pyLowerChar c := by
  cases h : upperLowerTable.find? (fun p => p.1 = c) with
  | none =>
      have hc : pyLowerChar c = c := by unfold pyLowerChar; rw [h]
      rw [hc, hc]
  | some p =>
      have hmem := List.mem_of_find?_eq_some h
      have hc : pyLowerChar c = p.2 := by unfold pyLowerChar; rw [h]
      have hlow : ∀ q ∈ upperLowerTable, ¬(q.1 = p.2) := by
        have hall : ∀ r ∈ upperLowerTable, ∀ q ∈ upperLowerTable, ¬(q.1 = r.2) := by
          decide
        exact hall p hmem
      rw [hc, pyLowerChar_fix p.2 hlow]

theorem lowerL_idem (l : List Char) : lowerL (lowerL l) = lowerL l := by
  induction l with
  | nil => rfl
  | cons c t ih =>
      simp only [lowerL, List.map_cons] at *
      rw [pyLowerChar_idem, ih]

theorem dropWhile_isWs_lowerL (l : List Char) :
    (lowerL l).dropWhile isWs = lowerL (l.dropWhile isWs) := by
  induction l with
  | nil => rfl
  | cons c t ih =>
      simp only [lowerL, List.map_cons, List.dropWhile_cons, isWs_pyLowerChar]
      cases h : isWs c
      · simp [lowerL]
      · simp only [if_pos rfl]
        simpa [lowerL] using ih

theorem lowerL_reverse (l : List Char) : (lowerL l).reverse = lowerL l.reverse := by
  simp [lowerL, List.map_reverse]

theorem dropTrail_lowerL (l : List Char) :
    dropTrail (lowerL l) = lowerL (dropTrail l) := by
  unfold dropTrail
  rw [lowerL_reverse, dropWhile_isWs_lowerL, lowerL_reverse]

theorem stripL_lowerL (l : List Char) : stripL (lowerL l) = lowerL (stripL l) := by
  unfold stripL
  rw [dropWhile_isWs_lowerL, dropTrail_lowerL]

theorem beginsWith_iff : ∀ pat l : List Char,
    beginsWith pat l = true ↔ ∃ t, l = pat ++ t
  | [], l => by simp [beginsWith]
  | a :: ps, [] => by simp [beginsWith]
  | a :: ps, b :: ls => by
      simp only [beginsWith, Bool.and_eq_true, decide_eq_true_eq]
      constructor
      · rintro ⟨rfl, h⟩
        obtain ⟨t, rfl⟩ := (beginsWith_iff ps ls).1 h
        exact ⟨t, rfl⟩
      · rintro ⟨t, ht⟩
        injection ht with h1 h2
        subst h1
        exact ⟨rfl, (beginsWith_iff ps ls).2 ⟨t, h2⟩⟩

theorem containsSub_iff : ∀ pat l : List Char,
    containsSub pat l = true ↔ ∃ s t, l = s ++ pat ++ t
  | pat, [] => by
      simp only [containsSub, List.isEmpty_iff]
      constructor
      · rintro rfl; exact ⟨[], [], rfl⟩
      · rintro ⟨s, t, h⟩
        have h2 := h.symm
        rw [List.append_assoc] at h2
        rcases List.append_eq_nil.1 h2 with ⟨rfl, h3⟩
        exact (List.append_eq_nil.1 h3).1
  | pat, c :: rest => by
      simp only [containsSub, Bool.or_eq_true]
      rw [beginsWith_iff, containsSub_iff pat rest]
      constructor
      · rintro (⟨t, ht⟩ | ⟨s, t, ht⟩)
        · exact ⟨[], t, by simpa using ht⟩
        · exact ⟨c :: s, t, by simp [ht]⟩
      · rintro ⟨s, t, h⟩
        cases s with
        | nil => exact Or.inl ⟨t, by simpa using h⟩
        | cons s0 s1 =>
            injection h with h1 h2
            exact Or.inr ⟨s1, t, h2⟩

theorem containsSub_reverse (pat l : List Char) :
    containsSub pat.reverse l.reverse = containsSub pat l := by
  have hiff : containsSub pat.reverse l.reverse = true ↔ containsSub pat l = true := by
    rw [containsSub_iff, containsSub_iff]
    constructor
    · rintro ⟨s, t, h⟩
      have h2 := congrArg List.reverse h
      simp only [List.reverse_reverse, List.reverse_append] at h2
      exact ⟨t.reverse, s.reverse, by simp [h2, List.append_assoc]⟩
    · rintro ⟨s, t, h⟩
      have h2 := congrArg List.reverse h
      simp only [List.reverse_append] at h2
      exact ⟨t.reverse, s.reverse, by simp [h2, List.append_assoc]⟩
  cases hb : containsSub pat l
  · cases ha : containsSub pat.reverse l.reverse
    · rfl
    · exact absurd (hiff.1 ha) (by simp [hb])
  · exact hiff.2 hb

theorem containsSub_dropWhile_isWs (pat : List Char) (hne : pat ≠ [])
    (hws : ∀ c ∈ pat, isWs c = false) (l : List Char) :
    containsSub pat (l.dropWhile isWs) = containsSub pat l := by
  induction l with
  | nil => rfl
  | cons c t ih =>
      rw [List.dropWhile_cons]
      by_cases h : isWs c = true
      · rw [if_pos h, ih]
        have hbw : beginsWith pat (c :: t) = false := by
          cases pat with
          | nil => exact absurd rfl hne
          | cons p ps =>
              have hp : isWs p = false := hws p (by simp)
              have hpc : p ≠ c := by
                intro e
                rw [e, h] at hp
                simp at hp
              simp [beginsWith, hpc]
        conv_rhs => rw [show containsSub pat (c :: t)
          = (beginsWith pat (c :: t) || containsSub pat t) from rfl]
        rw [hbw, Bool.false_or]
      · rw [if_neg h]

theorem containsSub_dropTrail (pat : List Char) (hne : pat ≠ [])
    (hws : ∀ c ∈ pat, isWs c = false) (l : List Char) :
    containsSub pat (dropTrail l) = containsSub pat l := by
  have hne2 : pat.reverse ≠ [] := by
    intro h
    exact hne (by simpa using congrArg List.reverse h)
  have hws2 : ∀ c ∈ pat.reverse, isWs c = false := by
    intro c hc
    exact hws c (List.mem_reverse.1 hc)
  unfold dropTrail
  calc containsSub pat (l.reverse.dropWhile isWs).reverse
      = containsSub pat.reverse.reverse (l.reverse.dropWhile isWs).reverse := by
        rw [List.reverse_reverse]
    _ = containsSub pat.reverse (l.reverse.dropWhile isWs) :=
        containsSub_reverse pat.reverse (l.reverse.dropWhile isWs)
    _ = containsSub pat.reverse l.reverse := containsSub_dropWhile_isWs _ hne2 hws2 _
    _ = containsSub pat l := containsSub_reverse pat l

theorem containsSub_stripL (pat : List Char) (hne : pat ≠ [])
    (hws : ∀ c ∈ pat, isWs c = false) (l : List Char) :
    containsSub pat (stripL l) = containsSub pat l := by
  unfold stripL
  rw [containsSub_dropTrail pat hne hws, containsSub_dropWhile_isWs pat hne hws]

theorem ignore_lower_strip (r : List Char) :
    containsSub igL (lowerL (lowerL (stripL r))) = containsSub igL (lowerL r) := by
  rw [lowerL_idem, ← stripL_lowerL,
    containsSub_stripL igL (by decide) (by decide) (lowerL r)]

/-! ## Claim theorems C4 and C8 -/

/-- C8: `create_draft_reply` reports success for every possible
confirmation text returned by the adapter — both when a known success
phrase is found and when none matches. -/
theorem draft_reports_success (original_email : EmailDetails)
    (response_body : String) (respond : String → String) :
    create_draft_reply original_email response_body respond = true := by
  simp [create_draft_reply]


/-! ## Claim theorems C9 and C10 -/

/-- C9: with zero related messages the aggregator returns (never
raises) the record with `total_count = 0`, an empty list and the
deterministic no-history summary; and a fetch failure for a single
history entry only skips that entry — the overall call still returns
the record built from the successfully fetched entries. -/
theorem history_empty_and_skip (sender_email : String)
    (histList : String → Except String (List String))
    (histFetch : String → Except String HistMeta) :
    (histList (extractAddr sender_email) = .ok [] →
      search_conversation_history sender_email histList histFetch =
        ⟨0, extractAddr sender_email, [],
          "No previous conversation with " ++ extractAddr sender_email⟩)
    ∧ (∀ resp, histList (extractAddr sender_email) = .ok resp →
        (search_conversation_history sender_email histList histFetch).all_emails =
          (resp.take 20).filterMap (fun msgId =>
            match histFetch msgId with
            | .error _ => none
            | .ok meta => some (mkHistEntry (extractAddr sender_email) msgId meta))) := by
  constructor
  · intro h
    unfold search_conversation_history
    simp only []
    rw [h]
    rfl
  · intro resp h
    unfold search_conversation_history
    simp only []
    rw [h]
    simp only []
    by_cases hE : (resp.take 20).isEmpty = true
    · have hnil : resp.take 20 = [] := List.isEmpty_iff.1 hE
      rw [if_pos hE, hnil]
      rfl
    · rw [if_neg hE]

/-- C9 witness: a counterpart with no history gets the explicit
no-history record. -/
theorem history_empty_and_skip_witness :
    search_conversation_history "Alice <alice@example.com>"
        (fun _ => .ok []) (fun _ => .error "404")
      = ⟨0, extractAddr "Alice <alice@example.com>", [],
          "No previous conversation with " ++ extractAddr "Alice <alice@example.com>"⟩ :=
  (history_empty_and_skip "Alice <alice@example.com>"
    (fun _ => .ok []) (fun _ => .error "404")).1 rfl

/-- C10: every record returned by `search_conversation_history` has
`total_count` equal to the length of `all_emails` and at most 20
entries (the `maxResults=20` fetch cap); the whole-call failure path
returns `total_count = 0` with an empty list. -/
theorem history_record_invariant (sender_email : String)
    (histList : String → Except String (List String))
    (histFetch : String → Except String HistMeta) :
    ((search_conversation_history sender_email histList histFetch).total_count
        = (search_conversation_history sender_email histList histFetch).all_emails.length)
    ∧ (search_conversation_history sender_email histList histFetch).all_emails.length ≤ 20
    ∧ (∀ e, histList (extractAddr sender_email) = .error e →
        (search_conversation_history sender_email histList histFetch).total_count = 0
        ∧ (search_conversation_history sender_email histList histFetch).all_emails = []) := by
  unfold search_conversation_history
  simp only []
  rcases h : histList (extractAddr sender_email) with e | resp
  · simp only []
    exact ⟨rfl, by simp, fun e2 he2 => by simp⟩
  · simp only []
    by_cases hE : (resp.take 20).isEmpty = true
    · rw [if_pos hE]
      exact ⟨rfl, by simp, fun e2 he2 => by cases he2⟩
    · rw [if_neg hE]
      refine ⟨rfl, ?_, fun e2 he2 => by cases he2⟩
      exact le_trans (List.length_filterMap_le _ _) (List.length_take_le _ _)

/-- C10 witness: a failing history listing yields the empty record. -/
theorem history_record_invariant_witness :
    (search_conversation_history "bob@host.example"
        (fun _ => .error "boom") (fun _ => .error "")).total_count = 0
    ∧ (search_conversation_history "bob@host.example"
        (fun _ => .error "boom") (fun _ => .error "")).all_emails = [] :=
  (history_record_invariant "bob@host.example"
    (fun _ => .error "boom") (fun _ => .error "")).2.2 "boom" rfl


/-! ## Lemmas about the enumeration helpers -/

theorem liveScan_eq_takeWhile (c : Nat) (l : List Msg) :
    liveScan c l = l.takeWhile (fun m => decide (c < m.internal_date)) := by
  induction l with
  | nil => rfl
  | cons m rest ih =>
      simp only [liveScan, List.takeWhile_cons]
      by_cases h : m.internal_date ≤ c
      · simp [h, Nat.not_lt.2 h]
      · simp [h, Nat.not_le.1 h, ih]

theorem liveScan_mem_gt (c : Nat) (l : List Msg) :
    ∀ m ∈ liveScan c l, c < m.internal_date := by
  induction l with
  | nil => intro m hm; cases hm
  | cons a rest ih =>
      intro m hm
      simp only [liveScan] at hm
      by_cases h : a.internal_date ≤ c
      · rw [if_pos h] at hm
        cases hm
      · rw [if_neg h] at hm
        rcases List.mem_cons.1 hm with rfl | hm2
        · exact Nat.not_le.1 h
        · exact ih m hm2

theorem liveScan_sublist (c : Nat) (l : List Msg) : (liveScan c l).Sublist l := by
  rw [liveScan_eq_takeWhile]
  exact List.takeWhile_sublist _

theorem foldl_max_init_le (l : List Nat) (a : Nat) : a ≤ l.foldl max a := by
  induction l generalizing a with
  | nil => exact le_refl a
  | cons x t ih => exact le_trans (le_max_left a x) (ih (max a x))

theorem mem_le_foldl_max (l : List Nat) (x : Nat) (hx : x ∈ l) :
    ∀ a, x ≤ l.foldl max a := by
  induction l with
  | nil => cases hx
  | cons y t ih =>
      intro a
      rcases List.mem_cons.1 hx with rfl | h
      · exact le_trans (le_max_right a x) (foldl_max_init_le t (max a x))
      · exact ih h (max a y)

theorem maxDate_ge (emails : List Msg) (m : Msg) (hm : m ∈ emails) :
    m.internal_date ≤ maxDate emails := by
  unfold maxDate
  exact mem_le_foldl_max _ _ (List.mem_map_of_mem Msg.internal_date hm) 0

theorem searchLoop_split (processed : List String) (mr : Option Nat) :
    ∀ (l acc : List Msg), ∃ s, searchLoop processed mr acc l = acc ++ s
      ∧ s.Sublist l ∧ ∀ m ∈ s, m.id ∉ processed := by
  intro l
  induction l with
  | nil =>
      intro acc
      exact ⟨[], by simp [searchLoop], List.nil_sublist _, by simp⟩
  | cons m rest ih =>
      intro acc
      by_cases hm : m.id ∈ processed
      · obtain ⟨s, h1, h2, h3⟩ := ih acc
        refine ⟨s, ?_, h2.cons m, h3⟩
        simp only [searchLoop]
        rw [if_pos hm]
        exact h1
      · by_cases hb : searchBreak mr (acc ++ [m]) = true
        · refine ⟨[m], ?_, (List.nil_sublist rest).cons₂ m, ?_⟩
          · simp only [searchLoop]
            rw [if_neg hm, if_pos hb]
          · intro x hx
            rcases List.mem_singleton.1 hx with rfl
            exact hm
        · obtain ⟨s, h1, h2, h3⟩ := ih (acc ++ [m])
          refine ⟨m :: s, ?_, h2.cons₂ m, ?_⟩
          · simp only [searchLoop]
            rw [if_neg hm, if_neg hb, h1, List.append_assoc]
            rfl
          · intro x hx
            rcases List.mem_cons.1 hx with rfl | hx2
            · exact hm
            · exact h3 x hx2

theorem search_new_emails_fresh (p : List String) (mr : Option Nat) (env : CycleEnv) :
    ∀ m ∈ search_new_emails p mr env, m.id ∉ p := by
  unfold search_new_emails
  cases hL : env.listing with
  | none => intro m hm; cases hm
  | some pool =>
      simp only []
      obtain ⟨s, h1, _h2, h3⟩ := searchLoop_split p mr (pool.take
        (match mr with
          | some k => if k = 0 then 50 else k
          | none => 50)) []
      rw [h1]
      simpa using h3

theorem search_new_emails_sub (p : List String) (mr : Option Nat) (env : CycleEnv)
    (pool : List Msg) (hL : env.listing = some pool) :
    (search_new_emails p mr env).Sublist pool := by
  unfold search_new_emails
  rw [hL]
  simp only []
  obtain ⟨s, h1, h2, _h3⟩ := searchLoop_split p mr (pool.take
    (match mr with
      | some k => if k = 0 then 50 else k
      | none => 50)) []
  rw [h1]
  simpa using h2.trans (List.take_sublist _ _)


/-! ## Lemmas about the per-message pipeline loop -/

theorem pe_processed_grow (env : CycleEnv) (l : List Msg) :
    ∀ processed, ∀ id ∈ processed, id ∈ (processEmails env l processed).processed := by
  induction l with
  | nil => intro p id hid; simpa [processEmails] using hid
  | cons m rest ih =>
      intro p id hid
      simp only [processEmails]
      by_cases h0 : m.id = ""
      · rw [if_pos h0]
        exact ih p id hid
      · rw [if_neg h0]
        by_cases hv : verdictIgnores (classify_email
            (get_email_details m.id (env.fetchDetails m.id)) env.respond) = true
        · rw [if_pos hv]
          exact ih _ id (List.mem_insert_iff.2 (Or.inr hid))
        · rw [if_neg hv]
          exact ih _ id (List.mem_insert_iff.2 (Or.inr hid))

theorem pe_processed_bound (env : CycleEnv) (l : List Msg) :
    ∀ p, ∀ id ∈ (processEmails env l p).processed,
      id ∈ p ∨ id ∈ l.map Msg.id := by
  induction l with
  | nil => intro p id hid; exact Or.inl (by simpa [processEmails] using hid)
  | cons m rest ih =>
      intro p id hid
      simp only [processEmails] at hid
      by_cases h0 : m.id = ""
      · rw [if_pos h0] at hid
        rcases ih p id hid with h | h
        · exact Or.inl h
        · exact Or.inr (List.mem_cons_of_mem m.id h)
      · rw [if_neg h0] at hid
        by_cases hv : verdictIgnores (classify_email
            (get_email_details m.id (env.fetchDetails m.id)) env.respond) = true
        · rw [if_pos hv] at hid
          rcases ih _ id hid with h | h
          · rcases List.mem_insert_iff.1 h with rfl | h2
            · exact Or.inr (List.mem_cons_self _ _)
            · exact Or.inl h2
          · exact Or.inr (List.mem_cons_of_mem m.id h)
        · rw [if_neg hv] at hid
          rcases ih _ id hid with h | h
          · rcases List.mem_insert_iff.1 h with rfl | h2
            · exact Or.inr (List.mem_cons_self _ _)
            · exact Or.inl h2
          · exact Or.inr (List.mem_cons_of_mem m.id h)

theorem pe_classified_sub (env : CycleEnv) (l : List Msg) :
    ∀ p, ((processEmails env l p).classified.map Prod.fst).Sublist (l.map Msg.id) := by
  induction l with
  | nil => intro p; simp [processEmails]
  | cons m rest ih =>
      intro p
      simp only [processEmails]
      by_cases h0 : m.id = ""
      · rw [if_pos h0]
        exact (ih p).cons m.id
      · rw [if_neg h0]
        by_cases hv : verdictIgnores (classify_email
            (get_email_details m.id (env.fetchDetails m.id)) env.respond) = true
        · rw [if_pos hv]
          exact (ih _).cons₂ m.id
        · rw [if_neg hv]
          exact (ih _).cons₂ m.id

theorem pe_drafted_sub_classified (env : CycleEnv) (l : List Msg) :
    ∀ p, ((processEmails env l p).drafted).Sublist
      ((processEmails env l p).classified.map Prod.fst) := by
  induction l with
  | nil => intro p; simp [processEmails]
  | cons m rest ih =>
      intro p
      simp only [processEmails]
      by_cases h0 : m.id = ""
      · rw [if_pos h0]
        exact ih p
      · rw [if_neg h0]
        by_cases hv : verdictIgnores (classify_email
            (get_email_details m.id (env.fetchDetails m.id)) env.respond) = true
        · rw [if_pos hv]
          exact (ih _).cons m.id
        · rw [if_neg hv]
          exact (ih _).cons₂ m.id

theorem pe_classified_processed (env : CycleEnv) (l : List Msg) :
    ∀ p, ∀ pr ∈ (processEmails env l p).classified,
      pr.1 ∈ (processEmails env l p).processed := by
  induction l with
  | nil => intro p pr hpr; simp [processEmails] at hpr
  | cons m rest ih =>
      intro p pr hpr
      simp only [processEmails] at hpr ⊢
      by_cases h0 : m.id = ""
      · rw [if_pos h0] at hpr ⊢
        exact ih p pr hpr
      · rw [if_neg h0] at hpr ⊢
        by_cases hv : verdictIgnores (classify_email
            (get_email_details m.id (env.fetchDetails m.id)) env.respond) = true
        · rw [if_pos hv] at hpr ⊢
          rcases List.mem_cons.1 hpr with rfl | h2
          · exact pe_processed_grow env rest _ m.id (List.mem_insert_iff.2 (Or.inl rfl))
          · exact ih _ pr h2
        · rw [if_neg hv] at hpr ⊢
          rcases List.mem_cons.1 hpr with rfl | h2
          · exact pe_processed_grow env rest _ m.id (List.mem_insert_iff.2 (Or.inl rfl))
          · exact ih _ pr h2

theorem pe_drafted_processed (env : CycleEnv) (l : List Msg) (p : List String) :
    ∀ id ∈ (processEmails env l p).drafted, id ∈ (processEmails env l p).processed := by
  intro id hid
  have h1 := (pe_drafted_sub_classified env l p).subset hid
  obtain ⟨pr, hpr, rfl⟩ := List.mem_map.1 h1
  exact pe_classified_processed env l p pr hpr

theorem pe_mem_classified (env : CycleEnv) (l : List Msg) :
    ∀ p, ∀ m ∈ l, m.id ≠ "" →
      ((m.id, get_email_details m.id (env.fetchDetails m.id))
          ∈ (processEmails env l p).classified
        ∧ m.id ∈ (processEmails env l p).processed) := by
  induction l with
  | nil => intro p m hm; cases hm
  | cons a rest ih =>
      intro p m hm hne
      rcases List.mem_cons.1 hm with rfl | hm2
      · simp only [processEmails]
        rw [if_neg hne]
        by_cases hv : verdictIgnores (classify_email
            (get_email_details m.id (env.fetchDetails m.id)) env.respond) = true
        · rw [if_pos hv]
          exact ⟨List.mem_cons_self _ _,
            pe_processed_grow env rest _ m.id (List.mem_insert_iff.2 (Or.inl rfl))⟩
        · rw [if_neg hv]
          exact ⟨List.mem_cons_self _ _,
            pe_processed_grow env rest _ m.id (List.mem_insert_iff.2 (Or.inl rfl))⟩
      · simp only [processEmails]
        by_cases h0 : a.id = ""
        · rw [if_pos h0]
          exact ih p m hm2 hne
        · rw [if_neg h0]
          by_cases hv : verdictIgnores (classify_email
              (get_email_details a.id (env.fetchDetails a.id)) env.respond) = true
          · rw [if_pos hv]
            obtain ⟨hc, hp⟩ := ih _ m hm2 hne
            exact ⟨List.mem_cons_of_mem _ hc, hp⟩
          · rw [if_neg hv]
            obtain ⟨hc, hp⟩ := ih _ m hm2 hne
            exact ⟨List.mem_cons_of_mem _ hc, hp⟩


/-! ## Reduction lemmas for `process_new_emails` -/

theorem run_boot (p : List String) (env : CycleEnv) :
    process_new_emails ⟨p, none⟩ env =
      match search_new_emails p (some 5) env with
      | [] => ⟨⟨p, some env.now⟩, [], [], []⟩
      | e0 :: es =>
          ⟨⟨(processEmails env (e0 :: es) p).processed, some (maxDate (e0 :: es))⟩,
            e0 :: es, (processEmails env (e0 :: es) p).classified,
            (processEmails env (e0 :: es) p).drafted⟩ := by
  simp only [process_new_emails]
  cases search_new_emails p (some 5) env <;> rfl

theorem run_live_fail (p : List String) (c : Nat) (env : CycleEnv)
    (hnone : env.listing = none) :
    process_new_emails ⟨p, some c⟩ env = ⟨⟨p, some c⟩, [], [], []⟩ := by
  simp only [process_new_emails]
  rw [hnone]

theorem run_live (p : List String) (c : Nat) (env : CycleEnv) (pool : List Msg)
    (hlist : env.listing = some pool) :
    process_new_emails ⟨p, some c⟩ env =
      match liveScan c (pool.take 10) with
      | [] => ⟨⟨p, some c⟩, [], [], []⟩
      | e0 :: es =>
          ⟨⟨(processEmails env (e0 :: es) p).processed, some (maxDate (e0 :: es))⟩,
            e0 :: es, (processEmails env (e0 :: es) p).classified,
            (processEmails env (e0 :: es) p).drafted⟩ := by
  simp only [process_new_emails]
  rw [hlist]
  simp only []
  cases liveScan c (pool.take 10) <;> rfl

theorem takeWhile_eq_filter_of_sorted (c : Nat) (pool : List Msg)
    (hsorted : List.Pairwise (fun a b => b.internal_date ≤ a.internal_date) pool) :
    pool.takeWhile (fun m => decide (c < m.internal_date))
      = pool.filter (fun m => decide (c < m.internal_date)) := by
  induction pool with
  | nil => rfl
  | cons a rest ih =>
      rcases List.pairwise_cons.1 hsorted with ⟨ha, htl⟩
      rw [List.takeWhile_cons, List.filter_cons]
      by_cases h : c < a.internal_date
      · simp [h, ih htl]
      · have hfil : rest.filter (fun m => decide (c < m.internal_date)) = [] := by
          rw [List.filter_eq_nil_iff]
          intro b hb
          simp only [decide_eq_true_eq]
          exact Nat.not_lt.2 (le_trans (ha b hb) (Nat.not_lt.1 h))
        simp [h, hfil]


/-! ## Claim theorems C1, C2, C5, C6, C7 -/

/-- C1: within every cycle of `process_new_emails` the checkpoint, once
set, never decreases; and a cycle that processed a non-empty list of
messages ends with the checkpoint equal to the maximum `internal_date`
among the messages processed in that cycle. -/
theorem checkpoint_monotone (st : AgentState) (env : CycleEnv) :
    (∀ c, st.last_check_time = some c →
      ∃ c2, (process_new_emails st env).state.last_check_time = some c2 ∧ c ≤ c2)
    ∧ ((process_new_emails st env).emails ≠ [] →
      (process_new_emails st env).state.last_check_time
        = some (maxDate (process_new_emails st env).emails)) := by
  rcases st with ⟨p, lct⟩
  cases lct with
  | none =>
      rw [run_boot p env]
      cases hse : search_new_emails p (some 5) env with
      | nil =>
          constructor
          · intro c hc
            have hc2 : (none : Option Nat) = some c := hc
            cases hc2
          · intro h
            exact absurd rfl h
      | cons e0 es =>
          constructor
          · intro c hc
            have hc2 : (none : Option Nat) = some c := hc
            cases hc2
          · intro _
            rfl
  | some c =>
      cases hL : env.listing with
      | none =>
          rw [run_live_fail p c env hL]
          constructor
          · intro c2 hc2
            have hc3 : some c = some c2 := hc2
            injection hc3 with h
            exact ⟨c, rfl, le_of_eq h.symm⟩
          · intro h
            exact absurd rfl h
      | some pool =>
          rw [run_live p c env pool hL]
          cases hls : liveScan c (pool.take 10) with
          | nil =>
              constructor
              · intro c2 hc2
                have hc3 : some c = some c2 := hc2
                injection hc3 with h
                exact ⟨c, rfl, le_of_eq h.symm⟩
              · intro h
                exact absurd rfl h
          | cons e0 es =>
              constructor
              · intro c2 hc2
                have hc3 : some c = some c2 := hc2
                injection hc3 with h
                refine ⟨maxDate (e0 :: es), rfl, ?_⟩
                rw [← h]
                have he0 : e0 ∈ liveScan c (pool.take 10) := by
                  rw [hls]
                  exact List.mem_cons_self _ _
                have h1 : c < e0.internal_date := liveScan_mem_gt c (pool.take 10) e0 he0
                have h2 : e0.internal_date ≤ maxDate (e0 :: es) :=
                  maxDate_ge _ e0 (List.mem_cons_self _ _)
                exact le_trans (le_of_lt h1) h2
              · intro _
                rfl

/-- C1 witness: the live cycle from checkpoint 300 over dates
500, 400, 300, 250 ends with a checkpoint at least 300, equal to the
maximum date of the processed messages. -/
theorem checkpoint_monotone_witness :
    (∃ c2, (process_new_emails stLive envLive).state.last_check_time = some c2 ∧ 300 ≤ c2)
    ∧ (process_new_emails stLive envLive).state.last_check_time
        = some (maxDate (process_new_emails stLive envLive).emails) := by
  constructor
  · exact (checkpoint_monotone stLive envLive).1 300 rfl
  · exact (checkpoint_monotone stLive envLive).2 (by decide)

/-- C2: in live mode, given a listing sorted descending by
`internal_date` and checkpoint `c`, the enumeration returns exactly the
prefix of the listing with `internal_date > c` (the scan stops at the
first message at or below the checkpoint), which under sortedness
equals the set of all listed messages newer than `c`. -/
theorem live_mode_boundary (st : AgentState) (env : CycleEnv) (c : Nat) (pool : List Msg)
    (hst : st.last_check_time = some c) (hlist : env.listing = some pool)
    (hlen : pool.length ≤ 10)
    (hsorted : List.Pairwise (fun a b => b.internal_date ≤ a.internal_date) pool) :
    (process_new_emails st env).emails
        = pool.takeWhile (fun m => decide (c < m.internal_date))
    ∧ (process_new_emails st env).emails
        = pool.filter (fun m => decide (c < m.internal_date)) := by
  rcases st with ⟨p, lct⟩
  have hlct : lct = some c := hst
  subst hlct
  have htake : pool.take 10 = pool := List.take_of_length_le hlen
  have hemails : (process_new_emails ⟨p, some c⟩ env).emails = liveScan c pool := by
    rw [run_live p c env pool hlist, htake]
    cases liveScan c pool <;> rfl
  rw [hemails, liveScan_eq_takeWhile]
  exact ⟨rfl, takeWhile_eq_filter_of_sorted c pool hsorted⟩

/-- C2 witness: checkpoint 300 over the descending listing
500, 400, 300, 250 enumerates exactly the messages dated 500 and 400. -/
theorem live_mode_boundary_witness :
    (process_new_emails stLive envLive).emails = [msgW "a" 500, msgW "b" 400] := by
  have hs : List.Pairwise (fun a b : Msg => b.internal_date ≤ a.internal_date)
      [msgW "a" 500, msgW "b" 400, msgW "c" 300, msgW "d" 250] := by decide
  have h := (live_mode_boundary stLive envLive 300
    [msgW "a" 500, msgW "b" 400, msgW "c" 300, msgW "d" 250] rfl rfl (by decide) hs).1
  exact h.trans (by decide)

/-- C5 counterexample: in a bootstrap cycle (checkpoint unset) whose
listing call fails, no message is processed, but the checkpoint does
NOT stay unchanged — it is set to the wall-clock time, refuting the
claim that a failed listing always leaves the checkpoint unchanged. -/
theorem listing_failure_bootstrap_ckpt_moves :
    envFail.listing = none
    ∧ (process_new_emails initialState envFail).emails = []
    ∧ initialState.last_check_time = none
    ∧ (process_new_emails initialState envFail).state.last_check_time = some 777 :=
  ⟨rfl, rfl, rfl, rfl⟩

/-- C5 (amended): when the unread listing fails, the cycle processes no
message; in live mode the whole state (checkpoint included) is left
unchanged, while in bootstrap mode the failure is treated as an empty
inbox and the checkpoint is set to the current wall-clock time. -/
theorem listing_failure_behavior (st : AgentState) (env : CycleEnv)
    (hfail : env.listing = none) :
    (∀ c, st.last_check_time = some c → process_new_emails st env = ⟨st, [], [], []⟩)
    ∧ (st.last_check_time = none → process_new_emails st env =
        ⟨⟨st.processed_emails, some env.now⟩, [], [], []⟩) := by
  rcases st with ⟨p, lct⟩
  constructor
  · intro c hc
    have h2 : lct = some c := hc
    subst h2
    exact run_live_fail p c env hfail
  · intro hc
    have h2 : lct = none := hc
    subst h2
    rw [run_boot p env]
    have hse : search_new_emails p (some 5) env = [] := by
      unfold search_new_emails
      rw [hfail]
    rw [hse]

/-- C5 witness: a live-mode cycle with a failing listing leaves the
state untouched. -/
theorem listing_failure_behavior_witness :
    process_new_emails ⟨[], some 5⟩ envFail = ⟨⟨[], some 5⟩, [], [], []⟩ :=
  (listing_failure_behavior ⟨[], some 5⟩ envFail rfl).1 5 rfl

/-- C6: with the checkpoint unset and a bootstrap fetch returning zero
unread messages, the cycle sets the checkpoint to the current
wall-clock time (epoch milliseconds) and processes no message. -/
theorem bootstrap_empty_inbox (st : AgentState) (env : CycleEnv)
    (hckpt : st.last_check_time = none) (hlist : env.listing = some []) :
    process_new_emails st env = ⟨⟨st.processed_emails, some env.now⟩, [], [], []⟩ := by
  rcases st with ⟨p, lct⟩
  have h2 : lct = none := hckpt
  subst h2
  rw [run_boot p env]
  have hse : search_new_emails p (some 5) env = [] := by
    unfold search_new_emails
    rw [hlist]
    rfl
  rw [hse]

/-- C6 witness: the first cycle over an empty inbox sets the checkpoint
to now (888) and processes nothing. -/
theorem bootstrap_empty_inbox_witness :
    process_new_emails initialState envEmpty = ⟨⟨[], some 888⟩, [], [], []⟩ :=
  bootstrap_empty_inbox initialState envEmpty rfl rfl

/-- C7: a message whose full-content fetch fails gets the synthetic
placeholder record (subject "Error fetching email", body carrying the
error text), is still put through classification on that placeholder,
and its id is still added to `processed_emails`. -/
theorem fetch_failure_degrades (env : CycleEnv) (l : List Msg) (p : List String)
    (m : Msg) (e : String) (hm : m ∈ l) (hne : m.id ≠ "")
    (hfail : env.fetchDetails m.id = .error e) :
    get_email_details m.id (env.fetchDetails m.id)
        = ⟨m.id, "Unknown", "Unknown", "Error fetching email", "Unknown", "Error: " ++ e, ""⟩
    ∧ (m.id, (⟨m.id, "Unknown", "Unknown", "Error fetching email", "Unknown",
          "Error: " ++ e, ""⟩ : EmailDetails)) ∈ (processEmails env l p).classified
    ∧ m.id ∈ (processEmails env l p).processed := by
  have hplace : get_email_details m.id (env.fetchDetails m.id)
      = ⟨m.id, "Unknown", "Unknown", "Error fetching email", "Unknown",
          "Error: " ++ e, ""⟩ := by
    rw [hfail]
    rfl
  obtain ⟨hc, hp⟩ := pe_mem_classified env l p m hm hne
  rw [hplace] at hc
  exact ⟨hplace, hc, hp⟩

/-- C7 witness: message "x" with a failing fetch is classified on the
placeholder record and still marked processed. -/
theorem fetch_failure_degrades_witness :
    (("x", (⟨"x", "Unknown", "Unknown", "Error fetching email", "Unknown",
        "Error: HttpError 500", ""⟩ : EmailDetails))
      ∈ (processEmails envFail [msgW "x" 10] []).classified)
    ∧ "x" ∈ (processEmails envFail [msgW "x" 10] []).processed := by
  have h := fetch_failure_degrades envFail [msgW "x" 10] [] (msgW "x" 10) "HttpError 500"
    (List.mem_singleton.2 rfl) (by decide) rfl
  exact ⟨h.2.1, h.2.2⟩


/-! ## The per-cycle dedup facts -/

theorem cycle_facts (idate : String → Nat) (st : AgentState) (env : CycleEnv)
    (hnodup : ∀ pool, env.listing = some pool → (pool.map Msg.id).Nodup)
    (hdate : ∀ pool, env.listing = some pool → ∀ m ∈ pool, m.internal_date = idate m.id)
    (hinv : Inv idate st) :
    (∀ m ∈ (process_new_emails st env).emails, m.id ∉ st.processed_emails)
    ∧ ((process_new_emails st env).emails.map Msg.id).Nodup
    ∧ ((process_new_emails st env).classified.map Prod.fst).Sublist
        ((process_new_emails st env).emails.map Msg.id)
    ∧ (∀ id ∈ st.processed_emails, id ∈ (process_new_emails st env).state.processed_emails)
    ∧ (∀ pr ∈ (process_new_emails st env).classified,
        pr.1 ∈ (process_new_emails st env).state.processed_emails)
    ∧ Inv idate (process_new_emails st env).state := by
  rcases st with ⟨p, lct⟩
  cases lct with
  | none =>
      have hp : p = [] := hinv.1 rfl
      subst hp
      rw [run_boot [] env]
      cases hse : search_new_emails [] (some 5) env with
      | nil =>
          refine ⟨fun m hm => absurd hm (List.not_mem_nil m), List.nodup_nil,
            List.nil_sublist _, fun id hid => hid,
            fun pr hpr => absurd hpr (List.not_mem_nil pr), ?_⟩
          exact ⟨fun h => Option.noConfusion h,
            fun id hid => absurd hid (List.not_mem_nil id)⟩
      | cons e0 es =>
          have hL : ∃ pool, env.listing = some pool := by
            cases hL0 : env.listing with
            | none =>
                rw [search_new_emails, hL0] at hse
                cases hse
            | some pool => exact ⟨pool, rfl⟩
          obtain ⟨pool, hL⟩ := hL
          have hsub : (e0 :: es).Sublist pool := by
            rw [← hse]
            exact search_new_emails_sub [] (some 5) env pool hL
          refine ⟨?_, ?_, pe_classified_sub env (e0 :: es) [], ?_, ?_, ?_⟩
          · intro m hm
            have hm2 : m ∈ e0 :: es := hm
            rw [← hse] at hm2
            exact search_new_emails_fresh [] (some 5) env m hm2
          · exact (hnodup pool hL).sublist (hsub.map Msg.id)
          · intro id hid
            exact absurd hid (List.not_mem_nil id)
          · intro pr hpr
            exact pe_classified_processed env (e0 :: es) [] pr hpr
          · refine ⟨fun h => Option.noConfusion h, ?_⟩
            intro id hid
            rcases pe_processed_bound env (e0 :: es) [] id hid with h | h
            · exact absurd h (List.not_mem_nil id)
            · obtain ⟨m, hm, rfl⟩ := List.mem_map.1 h
              refine ⟨maxDate (e0 :: es), rfl, ?_⟩
              rw [← hdate pool hL m (hsub.subset hm)]
              exact maxDate_ge _ m hm
  | some c =>
      cases hL : env.listing with
      | none =>
          rw [run_live_fail p c env hL]
          exact ⟨fun m hm => absurd hm (List.not_mem_nil m), List.nodup_nil,
            List.nil_sublist _, fun id hid => hid,
            fun pr hpr => absurd hpr (List.not_mem_nil pr), hinv⟩
      | some pool =>
          rw [run_live p c env pool hL]
          cases hls : liveScan c (pool.take 10) with
          | nil =>
              exact ⟨fun m hm => absurd hm (List.not_mem_nil m), List.nodup_nil,
                List.nil_sublist _, fun id hid => hid,
                fun pr hpr => absurd hpr (List.not_mem_nil pr), hinv⟩
          | cons e0 es =>
              have hsub : (e0 :: es).Sublist pool := by
                rw [← hls]
                exact (liveScan_sublist c (pool.take 10)).trans (List.take_sublist 10 pool)
              have hgt : ∀ m ∈ (e0 :: es), c < m.internal_date := by
                intro m hm
                rw [← hls] at hm
                exact liveScan_mem_gt c (pool.take 10) m hm
              have hcmax : c ≤ maxDate (e0 :: es) :=
                le_trans (le_of_lt (hgt e0 (List.mem_cons_self _ _)))
                  (maxDate_ge _ e0 (List.mem_cons_self _ _))
              refine ⟨?_, ?_, pe_classified_sub env (e0 :: es) p, ?_, ?_, ?_⟩
              · intro m hm hmem
                obtain ⟨c2, hc2, hle⟩ := hinv.2 m.id hmem
                have hc3 : c = c2 := by
                  have hc4 : some c = some c2 := hc2
                  injection hc4
                rw [← hdate pool hL m (hsub.subset hm), ← hc3] at hle
                exact absurd (hgt m hm) (Nat.not_lt.2 hle)
              · exact (hnodup pool hL).sublist (hsub.map Msg.id)
              · intro id hid
                exact pe_processed_grow env (e0 :: es) p id hid
              · intro pr hpr
                exact pe_classified_processed env (e0 :: es) p pr hpr
              · refine ⟨fun h => Option.noConfusion h, ?_⟩
                intro id hid
                rcases pe_processed_bound env (e0 :: es) p id hid with h | h
                · obtain ⟨c2, hc2, hle⟩ := hinv.2 id h
                  have hc3 : c = c2 := by
                    have hc4 : some c = some c2 := hc2
                    injection hc4
                  exact ⟨maxDate (e0 :: es), rfl, le_trans (hc3 ▸ hle) hcmax⟩
                · obtain ⟨m, hm, rfl⟩ := List.mem_map.1 h
                  refine ⟨maxDate (e0 :: es), rfl, ?_⟩
                  rw [← hdate pool hL m (hsub.subset hm)]
                  exact maxDate_ge _ m hm


/-! ## Run-level dedup facts -/

theorem trace_facts (idate : String → Nat) :
    ∀ (envs : List CycleEnv) (st : AgentState), Inv idate st →
    (∀ env ∈ envs, ∀ pool, env.listing = some pool → (pool.map Msg.id).Nodup) →
    (∀ env ∈ envs, ∀ pool, env.listing = some pool →
        ∀ m ∈ pool, m.internal_date = idate m.id) →
    ((∀ pr ∈ tracePairs st envs, ∀ m ∈ pr.2.emails, m.id ∉ pr.1.processed_emails)
    ∧ ((tracePairs st envs).map (fun pr => pr.2.classified.map Prod.fst)).flatten.Nodup
    ∧ (∀ id ∈ ((tracePairs st envs).map
        (fun pr => pr.2.classified.map Prod.fst)).flatten,
        id ∉ st.processed_emails)) := by
  intro envs
  induction envs with
  | nil =>
      intro st hinv _ _
      exact ⟨fun pr hpr => absurd hpr (List.not_mem_nil pr),
        by simp [tracePairs], by simp [tracePairs]⟩
  | cons env rest ih =>
      intro st hinv hnodup hdate
      obtain ⟨hfresh, hnd, hclsub, hmono, hclproc, hinv2⟩ :=
        cycle_facts idate st env
          (fun pool hp => hnodup env (List.mem_cons_self _ _) pool hp)
          (fun pool hp => hdate env (List.mem_cons_self _ _) pool hp) hinv
      obtain ⟨ih1, ih2, ih3⟩ := ih (process_new_emails st env).state hinv2
        (fun e he => hnodup e (List.mem_cons_of_mem env he))
        (fun e he => hdate e (List.mem_cons_of_mem env he))
      have htr : tracePairs st (env :: rest)
          = (st, process_new_emails st env)
            :: tracePairs (process_new_emails st env).state rest := rfl
      rw [htr]
      refine ⟨?_, ?_, ?_⟩
      · intro pr hpr
        rcases List.mem_cons.1 hpr with rfl | h2
        · exact hfresh
        · exact ih1 pr h2
      · rw [List.map_cons, List.flatten_cons]
        refine List.nodup_append.2 ⟨hnd.sublist hclsub, ih2, ?_⟩
        intro a ha1 ha2
        obtain ⟨pr, hpr, rfl⟩ := List.mem_map.1 ha1
        exact (ih3 pr.1 ha2) (hclproc pr hpr)
      · rw [List.map_cons, List.flatten_cons]
        intro id hid
        rcases List.mem_append.1 hid with h1 | h2
        · obtain ⟨pr, hpr, rfl⟩ := List.mem_map.1 h1
          have hcl : pr.1 ∈ (process_new_emails st env).emails.map Msg.id :=
            hclsub.subset (List.mem_map_of_mem Prod.fst hpr)
          obtain ⟨m, hm, heq⟩ := List.mem_map.1 hcl
          rw [← heq]
          exact hfresh m hm
        · intro hmem
          exact (ih3 id h2) (hmono id hmem)

theorem cycle_drafted_sub (st : AgentState) (env : CycleEnv) :
    ((process_new_emails st env).drafted).Sublist
      ((process_new_emails st env).classified.map Prod.fst) := by
  rcases st with ⟨p, lct⟩
  cases lct with
  | none =>
      rw [run_boot p env]
      cases search_new_emails p (some 5) env with
      | nil => exact List.nil_sublist _
      | cons e0 es => exact pe_drafted_sub_classified env (e0 :: es) p
  | some c =>
      cases hL : env.listing with
      | none =>
          rw [run_live_fail p c env hL]
          exact List.nil_sublist _
      | some pool =>
          rw [run_live p c env pool hL]
          cases liveScan c (pool.take 10) with
          | nil => exact List.nil_sublist _
          | cons e0 es => exact pe_drafted_sub_classified env (e0 :: es) p

theorem flatten_map_sublist {α β : Type} (f g : α → List β) :
    ∀ L : List α, (∀ x ∈ L, (f x).Sublist (g x)) →
      ((L.map f).flatten).Sublist ((L.map g).flatten) := by
  intro L
  induction L with
  | nil => intro _; exact List.Sublist.refl _
  | cons x t ih =>
      intro h
      rw [List.map_cons, List.flatten_cons, List.map_cons, List.flatten_cons]
      exact (h x (List.mem_cons_self _ _)).append
        (ih (fun y hy => h y (List.mem_cons_of_mem x hy)))

theorem tracePairs_result (envs : List CycleEnv) :
    ∀ (st : AgentState), ∀ pr ∈ tracePairs st envs,
      ∃ env, pr.2 = process_new_emails pr.1 env := by
  induction envs with
  | nil => intro st pr hpr; exact absurd hpr (List.not_mem_nil pr)
  | cons env rest ih =>
      intro st pr hpr
      have htr : tracePairs st (env :: rest)
          = (st, process_new_emails st env)
            :: tracePairs (process_new_emails st env).state rest := rfl
      rw [htr] at hpr
      rcases List.mem_cons.1 hpr with rfl | h2
      · exact ⟨env, rfl⟩
      · exact ih _ pr h2

/-! ## Claim theorem C3 -/

/-- C3: in every run from the initial state — assuming each listing
returned by the provider carries distinct ids whose `internal_date` is
a fixed function of the id — no cycle enumerates a candidate whose id
is already in `processed_emails` (in bootstrap mode by the explicit
skip, in live mode through the checkpoint), no id is put through a
second classify sequence, and no id is handed to the reasoning adapter
for drafting more than once within the run. -/
theorem dedup_idempotence (idate : String → Nat) (envs : List CycleEnv)
    (hnodup : ∀ env ∈ envs, ∀ pool, env.listing = some pool → (pool.map Msg.id).Nodup)
    (hdate : ∀ env ∈ envs, ∀ pool, env.listing = some pool →
        ∀ m ∈ pool, m.internal_date = idate m.id) :
    (∀ pr ∈ tracePairs initialState envs, ∀ m ∈ pr.2.emails,
        m.id ∉ pr.1.processed_emails)
    ∧ ((tracePairs initialState envs).map
        (fun pr => pr.2.classified.map Prod.fst)).flatten.Nodup
    ∧ ((tracePairs initialState envs).map (fun pr => pr.2.drafted)).flatten.Nodup := by
  have hInit : Inv idate initialState :=
    ⟨fun _ => rfl, fun id hid => absurd hid (List.not_mem_nil id)⟩
  obtain ⟨h1, h2, _h3⟩ := trace_facts idate envs initialState hInit hnodup hdate
  refine ⟨h1, h2, ?_⟩
  have hsub : (((tracePairs initialState envs).map
        (fun pr => pr.2.drafted)).flatten).Sublist
      (((tracePairs initialState envs).map
        (fun pr => pr.2.classified.map Prod.fst)).flatten) := by
    refine flatten_map_sublist _ _ (tracePairs initialState envs) ?_
    intro pr hpr
    obtain ⟨env, heq⟩ := tracePairs_result envs initialState pr hpr
    rw [heq]
    exact cycle_drafted_sub pr.1 env
  exact h2.sublist hsub

/-- C3 witness: a bootstrap cycle over ids "a", "b" followed by a live
cycle over ids "c", "a" never classifies or drafts an id twice. -/
theorem dedup_idempotence_witness :
    ((tracePairs initialState [envBoot, envLive2]).map
        (fun pr => pr.2.classified.map Prod.fst)).flatten.Nodup
    ∧ ((tracePairs initialState [envBoot, envLive2]).map
        (fun pr => pr.2.drafted)).flatten.Nodup := by
  have hnodup : ∀ env ∈ [envBoot, envLive2], ∀ pool, env.listing = some pool →
      (pool.map Msg.id).Nodup := by
    intro env henv pool hp
    rcases List.mem_cons.1 henv with rfl | henv2
    · have hp2 : some [msgW "a" 500, msgW "b" 400] = some pool := hp
      cases hp2
      decide
    · rcases List.mem_cons.1 henv2 with rfl | henv3
      · have hp2 : some [msgW "c" 600, msgW "a" 500] = some pool := hp
        cases hp2
        decide
      · exact absurd henv3 (List.not_mem_nil env)
  have hdate : ∀ env ∈ [envBoot, envLive2], ∀ pool, env.listing = some pool →
      ∀ m ∈ pool, m.internal_date = idateW m.id := by
    intro env henv pool hp
    rcases List.mem_cons.1 henv with rfl | henv2
    · have hp2 : some [msgW "a" 500, msgW "b" 400] = some pool := hp
      cases hp2
      decide
    · rcases List.mem_cons.1 henv2 with rfl | henv3
      · have hp2 : some [msgW "c" 600, msgW "a" 500] = some pool := hp
        cases hp2
        decide
      · exact absurd henv3 (List.not_mem_nil env)
  have h := dedup_idempotence idateW [envBoot, envLive2] hnodup hdate
  exact ⟨h.2.1, h.2.2⟩


/-! ## Claim theorem C4 -/

theorem pe_mem_drafted (env : CycleEnv) (l : List Msg) :
    ∀ p, ∀ m ∈ l, m.id ≠ "" →
      verdictIgnores (classify_email
          (get_email_details m.id (env.fetchDetails m.id)) env.respond) = false →
      m.id ∈ (processEmails env l p).drafted := by
  induction l with
  | nil => intro p m hm _ _; exact absurd hm (List.not_mem_nil m)
  | cons a rest ih =>
      intro p m hm hne hv
      rcases List.mem_cons.1 hm with rfl | hm2
      · simp only [processEmails]
        rw [if_neg hne, if_neg (by simp [hv])]
        exact List.mem_cons_self _ _
      · simp only [processEmails]
        by_cases h0 : a.id = ""
        · rw [if_pos h0]
          exact ih p m hm2 hne hv
        · rw [if_neg h0]
          by_cases hva : verdictIgnores (classify_email
              (get_email_details a.id (env.fetchDetails a.id)) env.respond) = true
          · rw [if_pos hva]
            exact ih _ m hm2 hne hv
          · rw [if_neg hva]
            exact List.mem_cons_of_mem _ (ih _ m hm2 hne hv)

/-- C4: the derived verdict is `ignore` exactly when the lowercased
reasoning-service response contains the substring "ignore" (the
`strip`/`lower` normalisation of `classify_email` does not change
this); and a candidate whose response yields the `process` verdict goes
on through history aggregation and generation to drafting. -/
theorem classification_default :
    (∀ (email : EmailDetails) (respond : String → String),
      verdictIgnores (classify_email email respond)
        = strContains "ignore" (pyLower (respond (classification_prompt email))))
    ∧ (∀ (env : CycleEnv) (l : List Msg) (p : List String), ∀ m ∈ l, m.id ≠ "" →
        verdictIgnores (classify_email
          (get_email_details m.id (env.fetchDetails m.id)) env.respond) = false →
        m.id ∈ (processEmails env l p).drafted) := by
  constructor
  · intro email respond
    show containsSub "ignore".data
        (lowerL (lowerL (stripL (respond (classification_prompt email)).data)))
      = containsSub "ignore".data (lowerL (respond (classification_prompt email)).data)
    have hig : "ignore".data = igL := rfl
    rw [hig]
    exact ignore_lower_strip (respond (classification_prompt email)).data
  · intro env l p m hm hne hv
    exact pe_mem_drafted env l p m hm hne hv

/-- C4 witness: a "process" response (no "ignore" substring) sends
message "x" through to drafting. -/
theorem classification_default_witness :
    "x" ∈ (processEmails envFail [msgW "x" 10] []).drafted :=
  classification_default.2 envFail [msgW "x" 10] [] (msgW "x" 10)
    (List.mem_singleton.2 rfl) (by decide) (by decide)

end EmailAgent
